import Mathlib

/-!
Shallow embedding of the phrase-highlighting logic of the text_highlighter
repository (src/pdfViewer.jsx, `highlightPhrase` and the surrounding viewer
state).  Text is modelled as `List Char`; JavaScript numbers are modelled as
exact rationals `ℚ`; JavaScript `undefined` fields are `Option`; the
JavaScript falsy-or idiom `a || b` on numbers is made explicit.
-/

namespace TextHighlighter

/-- JavaScript `toLowerCase` on the character ranges exercised here. -/
def jsToLower (s : List Char) : List Char := s.map Char.toLower

/-- Whitespace characters removed by JavaScript `String.prototype.trim`. -/
def jsIsSpace (c : Char) : Bool :=
  c = ' ' || c = '\t' || c = '\n' || c = '\r' || c = '\x0b' || c = '\x0c'

/-- JavaScript `s.trim()`: strip whitespace from both ends. -/
def trimChars (s : List Char) : List Char :=
  ((s.dropWhile jsIsSpace).reverse.dropWhile jsIsSpace).reverse

/-- JavaScript `s.indexOf(t)`: index of the first occurrence of `t` in `s`,
`none` standing for the sentinel `-1`. -/
def idxOf (t : List Char) : List Char → Option Nat
  | [] => if t.isPrefixOf ([] : List Char) then some 0 else none
  | c :: s => if t.isPrefixOf (c :: s) then some 0 else (idxOf t s).map (· + 1)

/-- JavaScript `v || d` on a number that may be `undefined` (`none`):
`undefined`, `0` (and `NaN`, not modelled) are falsy. -/
def jsOrOpt (v : Option ℚ) (d : ℚ) : ℚ :=
  match v with
  | none => d
  | some x => if x = 0 then d else x

/-- JavaScript `v || d` on a number that is always present. -/
def jsOr (v d : ℚ) : ℚ := if v = 0 then d else v

/-- A raw text item as delivered by `page.getTextContent()`: any field may be
missing.  Of the text matrix `transform` only the translation components
`transform[4]` and `transform[5]` are consumed by the code, so only those are
modelled; the default matrix `[1,0,0,1,0,0]` has translation `(0,0)`. -/
structure RawItem where
  str : Option (List Char)
  transform : Option (ℚ × ℚ)
  width : Option ℚ
  height : Option ℚ

/-- A normalized item, after the `textContent.items.map(...)` step of
`highlightPhrase` (lines 137-142 of pdfViewer.jsx). -/
structure Item where
  str : List Char
  x : ℚ
  y : ℚ
  width : ℚ
  height : ℚ
deriving DecidableEq

instance : Inhabited Item := ⟨⟨[], 0, 0, 0, 0⟩⟩

/-- The normalization `{ str: it.str || "", transform: it.transform || [1,0,0,1,0,0],
width: it.width || 0, height: it.height || 10 }`. -/
def normalizeItem (r : RawItem) : Item :=
  { str := r.str.getD []
    x := (r.transform.getD (0, 0)).1
    y := (r.transform.getD (0, 0)).2
    width := jsOrOpt r.width 0
    height := jsOrOpt r.height 10 }

/-- Per-page layout entry recorded by the page-render effect:
`pageInfo.current[pageNumber] = { scale, viewportHeight, offsetTop, offsetLeft }`. -/
structure PageMeta where
  scale : ℚ
  viewportHeight : ℚ
  offsetTop : ℚ
  offsetLeft : ℚ
deriving DecidableEq

/-- A screen-space highlight rectangle. -/
structure Rect where
  left : ℚ
  top : ℚ
  width : ℚ
  height : ℚ
deriving DecidableEq

instance : Inhabited Rect := ⟨⟨0, 0, 0, 0⟩⟩

/-- Effective width used by both phases: `it.width || it.str.length * 5`. -/
def effWidth (it : Item) : ℚ := jsOr it.width ((it.str.length : ℚ) * 5)

/-- Effective height used by both phases: `it.height || 10`. -/
def effHeight (it : Item) : ℚ := jsOr it.height 10

/-- The single-fragment rectangle of phase 1 (lines 151-187): horizontal
interpolation by character position, page-to-screen flip, 3px padding and the
final 6px upward nudge (`rect.top -= 6`). -/
def singleRect (it : Item) (idx tlen : Nat) (m : PageMeta) : Rect :=
  let x := it.x
  let y := it.y
  let w := effWidth it
  let h := effHeight it
  let charCount : ℚ := if it.str.length = 0 then 1 else (it.str.length : ℚ)
  let startFrac := (idx : ℚ) / charCount
  let endFrac := ((idx : ℚ) + (tlen : ℚ)) / charCount
  let leftX := x + w * startFrac
  let rightX := x + w * endFrac
  let textTopPdf := y - h
  let top := m.offsetTop + (m.viewportHeight - textTopPdf * m.scale) - h * m.scale
  let height := h * m.scale
  let baseWidth := (rightX - leftX) * m.scale
  let baseLeft := m.offsetLeft + leftX * m.scale
  let pad : ℚ := 3
  { left := baseLeft - pad
    top := top - pad - 6
    width := baseWidth + pad * 2
    height := height + pad * 2 }

/-- The phase-1 scan (lines 145-149): the first item whose lower-cased text
contains the target, together with the offset of the first occurrence. -/
def firstHitAux (target : List Char) : List Item → Nat → Option (Nat × Nat)
  | [], _ => none
  | it :: rest, i =>
    match idxOf target (jsToLower it.str) with
    | some idx => some (i, idx)
    | none => firstHitAux target rest (i + 1)

/-- Scan starting at item 0. -/
def firstHit (target : List Char) (items : List Item) : Option (Nat × Nat) :=
  firstHitAux target items 0

/-- Phase 1 of a page.  The source checks the layout entry per fragment and
skips the fragment when it is absent; since the entry is the same for every
fragment of the page, the phase produces a rectangle exactly when the scan
hits and the layout entry exists. -/
def phase1 (items : List Item) (target : List Char) (meta : Option PageMeta) :
    Option Rect :=
  match firstHit target items, meta with
  | some (i, idx), some m => some (singleRect (items.getD i default) idx target.length m)
  | _, _ => none

/-- The concatenation `items.map(i => i.str).join(" ")` of phase 2. -/
def joinSpace (items : List Item) : List Char :=
  List.intercalate [' '] (items.map Item.str)

/-- The fragment-range walk of phase 2 (lines 199-212), transcribed: `i` is
the current index, `cum` the running `cumulative`, `st` the `startItem`
(`none` standing for `-1`).  Returns the final `(startItem, endItem)` pair
before the `-1` defaults are applied. -/
def walkAux (idx tlen : Nat) : List Nat → Nat → Nat → Option Nat →
    Option Nat × Option Nat
  | [], _, _, st => (st, none)
  | len :: rest, i, cum, st =>
    let next := cum + len + 1
    let st2 : Option Nat :=
      match st with
      | some s => some s
      | none => if idx < next then some i else none
    if st2.isSome ∧ idx + tlen ≤ next then (st2, some i)
    else walkAux idx tlen rest (i + 1) next st2

/-- The walk applied to a page's items with the source's defaults
(`if (startItem === -1) startItem = 0; if (endItem === -1) endItem = startItem`). -/
def findRange (items : List Item) (idx tlen : Nat) : Nat × Nat :=
  let r := walkAux idx tlen (items.map (fun it => it.str.length)) 0 0 none
  let s := r.1.getD 0
  (s, r.2.getD s)

/-- The inclusive item slice `items[s..e]` visited by the bounding-box loop. -/
def sliceIncl (items : List Item) (s e : Nat) : List Item :=
  (items.drop s).take (e + 1 - s)

/-- Fold of `Math.min` over a list that is nonempty at every call site; the
`Infinity` seed of the source is represented by seeding with the head. -/
def foldMin (l : List ℚ) : ℚ :=
  match l with
  | [] => 0
  | a :: r => r.foldl min a

/-- Fold of `Math.max`, seeded analogously to `foldMin`. -/
def foldMax (l : List ℚ) : ℚ :=
  match l with
  | [] => 0
  | a :: r => r.foldl max a

/-- The multi-fragment bounding-box rectangle of phase 2 (lines 217-255):
page-space bounding box of the item range, page-to-screen flip, 4px padding
and the same 6px upward nudge. -/
def bboxRect (its : List Item) (m : PageMeta) : Rect :=
  let minX := foldMin (its.map Item.x)
  let minY := foldMin (its.map (fun it => it.y - effHeight it))
  let maxX := foldMax (its.map (fun it => it.x + effWidth it))
  let maxY := foldMax (its.map Item.y)
  let baseLeft := m.offsetLeft + minX * m.scale
  let top := m.offsetTop + (m.viewportHeight - maxY * m.scale)
  let baseWidth := (maxX - minX) * m.scale
  let height := (maxY - minY) * m.scale
  let pad : ℚ := 4
  { left := baseLeft - pad
    top := top - pad - 6
    width := baseWidth + pad * 2
    height := height + pad * 2 }

/-- Phase 2 of a page (lines 194-259): search the space-joined, lower-cased
concatenation, determine the fragment range, and produce the bounding-box
rectangle when the layout entry exists.  The source computes the box before
checking the layout entry and then abandons the page; the outcome is the
same. -/
def phase2 (items : List Item) (target : List Char) (meta : Option PageMeta) :
    Option Rect :=
  match idxOf target (jsToLower (joinSpace items)), meta with
  | some idx, some m =>
    let r := findRange items idx target.length
    some (bboxRect (sliceIncl items r.1 r.2) m)
  | _, _ => none

/-- A page as consumed by `highlightPhrase`: its raw text items and its
layout-registry entry (absent when the page has not been rendered). -/
structure Page where
  rawItems : List RawItem
  meta : Option PageMeta

/-- Result of processing one page of the page loop: phase 1, then phase 2. -/
def pageResult (pg : Page) (target : List Char) : Option Rect :=
  let items := pg.rawItems.map normalizeItem
  match phase1 items target pg.meta with
  | some r => some r
  | none => phase2 items target pg.meta

/-- The loaded document: pages in ascending page-number order, page `n` at
list position `n - 1`. -/
structure Doc where
  pages : List Page

/-- Page lookup by 1-based page number. -/
def getPage (d : Doc) (n : Nat) : Page := d.pages.getD (n - 1) ⟨[], none⟩

/-- The page visit order of lines 126-131: push a valid hint first, then every
page from 1 to `total` not already in the list. -/
def pageOrder (total : Nat) (hint : Option Nat) : List Nat :=
  let init : List Nat :=
    match hint with
    | some h => if 1 ≤ h ∧ h ≤ total then [h] else []
    | none => []
  (List.range' 1 total).foldl (fun acc p => if p ∈ acc then acc else acc ++ [p]) init

/-- The page loop: first page (in visit order) yielding a rectangle wins. -/
def searchPages (d : Doc) (target : List Char) : List Nat → Option Rect
  | [] => none
  | p :: rest =>
    match pageResult (getPage d p) target with
    | some r => some r
    | none => searchPages d target rest

/-- The full `highlightPhrase(phrase, pageHint)` call against highlight state
`highlights`: returns the boolean result and the new highlight state
(`setHighlights([rect])` on success, untouched state otherwise). -/
def highlightPhrase (doc : Option Doc) (phrase : List Char) (hint : Option Nat)
    (highlights : List Rect) : Bool × List Rect :=
  match doc with
  | none => (false, highlights)
  | some d =>
    if phrase = [] then (false, highlights)
    else
      let target := jsToLower (trimChars phrase)
      if target = [] then (false, highlights)
      else
        match searchPages d target (pageOrder d.pages.length hint) with
        | some r => (true, [r])
        | none => (false, highlights)

/-- The viewer state the claims talk about: the loaded document (with its
layout registry) and the `highlights` React state. -/
structure ViewerState where
  doc : Option Doc
  highlights : List Rect

/-- The `highlightPhrase` call as a state transition on the viewer state. -/
def applyHighlightPhrase (vs : ViewerState) (phrase : List Char)
    (hint : Option Nat) : Bool × ViewerState :=
  let r := highlightPhrase vs.doc phrase hint vs.highlights
  (r.1, { vs with highlights := r.2 })

/-- The imperative `clearHighlights()` handle: `setHighlights([])`. -/
def clearHighlights (vs : ViewerState) : ViewerState :=
  { vs with highlights := [] }

/-- The re-render effect that runs on a zoom change (lines 61-101): it clears
the highlights (`setHighlights([])`, line 99) and overwrites every page's
layout entry with freshly computed metadata. -/
def rerenderOnZoom (vs : ViewerState) (newMeta : Nat → Option PageMeta) :
    ViewerState :=
  { doc := vs.doc.map (fun d => ⟨d.pages.mapIdx (fun i pg => { pg with meta := newMeta (i + 1) })⟩)
    highlights := [] }

/-! ### Helper lemmas -/

lemma pushOrder_eq (l : List Nat) : ∀ acc : List Nat, l.Nodup →
    l.foldl (fun acc p => if p ∈ acc then acc else acc ++ [p]) acc
      = acc ++ l.filter (fun p => decide (p ∉ acc)) := by
  induction l with
  | nil => intro acc _; simp
  | cons p rest ih =>
    intro acc hnd
    have hpr : p ∉ rest := (List.nodup_cons.mp hnd).1
    have hrest : rest.Nodup := (List.nodup_cons.mp hnd).2
    by_cases hp : p ∈ acc
    · rw [List.foldl_cons, if_pos hp, ih acc hrest]
      simp [List.filter_cons, hp]
    · rw [List.foldl_cons, if_neg hp, ih (acc ++ [p]) hrest]
      have hcong : rest.filter (fun q => decide (q ∉ acc ++ [p]))
          = rest.filter (fun q => decide (q ∉ acc)) := by
        apply List.filter_congr
        intro q hq
        have hqp : q ≠ p := fun h => hpr (h ▸ hq)
        simp [List.mem_append, hqp]
      rw [hcong]
      simp [List.filter_cons, hp]

lemma pageOrder_valid_hint (total h : Nat) (h1 : 1 ≤ h) (h2 : h ≤ total) :
    pageOrder total (some h)
      = h :: (List.range' 1 total).filter (fun p => decide (p ≠ h)) := by
  show (List.range' 1 total).foldl
      (fun acc p => if p ∈ acc then acc else acc ++ [p])
      (if 1 ≤ h ∧ h ≤ total then [h] else []) = _
  rw [if_pos ⟨h1, h2⟩, pushOrder_eq _ _ (List.nodup_range' ..)]
  have hc : (List.range' 1 total).filter (fun p => decide (p ∉ [h]))
      = (List.range' 1 total).filter (fun p => decide (p ≠ h)) := by
    apply List.filter_congr
    intro q _
    simp
  rw [hc]
  rfl

lemma pageOrder_no_hint (total : Nat) (hint : Option Nat)
    (h : ∀ k, hint = some k → ¬(1 ≤ k ∧ k ≤ total)) :
    pageOrder total hint = List.range' 1 total := by
  cases hint with
  | none =>
    show (List.range' 1 total).foldl
        (fun acc p => if p ∈ acc then acc else acc ++ [p]) [] = _
    rw [pushOrder_eq _ _ (List.nodup_range' ..)]
    simp
  | some k =>
    show (List.range' 1 total).foldl
        (fun acc p => if p ∈ acc then acc else acc ++ [p])
        (if 1 ≤ k ∧ k ≤ total then [k] else []) = _
    rw [if_neg (h k rfl), pushOrder_eq _ _ (List.nodup_range' ..)]
    simp

/-! ### C2: page visit order -/

/-- C2: the pages are visited each exactly once; a valid pageHint is visited
first, followed by the remaining pages in ascending page-number order; an
absent or out-of-range pageHint gives the pure ascending order 1..total. -/
theorem claim2_page_visit_order (total : Nat) (hint : Option Nat) :
    (∀ h, hint = some h → 1 ≤ h → h ≤ total →
      pageOrder total hint
        = h :: (List.range' 1 total).filter (fun p => decide (p ≠ h))
        ∧ (pageOrder total hint).tail.Pairwise (· < ·))
    ∧ ((∀ h, hint = some h → ¬(1 ≤ h ∧ h ≤ total)) →
      pageOrder total hint = List.range' 1 total
        ∧ (pageOrder total hint).Pairwise (· < ·))
    ∧ (pageOrder total hint).Nodup := by
  refine ⟨?_, ?_, ?_⟩
  · rintro h rfl h1 h2
    have he := pageOrder_valid_hint total h h1 h2
    refine ⟨he, ?_⟩
    rw [he]
    exact (List.pairwise_lt_range' ..).filter _
  · intro h
    have he := pageOrder_no_hint total hint h
    exact ⟨he, he ▸ List.pairwise_lt_range' ..⟩
  · by_cases hv : ∃ h, hint = some h ∧ 1 ≤ h ∧ h ≤ total
    · obtain ⟨h, rfl, h1, h2⟩ := hv
      rw [pageOrder_valid_hint total h h1 h2]
      refine List.nodup_cons.mpr ⟨?_, (List.nodup_range' ..).filter _⟩
      intro hmem
      have := List.of_mem_filter hmem
      simp at this
    · rw [pageOrder_no_hint total hint (fun k hk hc => hv ⟨k, hk, hc⟩)]
      exact List.nodup_range' ..

/-- C2 witness: concrete instantiation with a valid hint. -/
theorem claim2_witness :
    pageOrder 4 (some 3)
      = 3 :: (List.range' 1 4).filter (fun p => decide (p ≠ 3)) :=
  ((claim2_page_visit_order 4 (some 3)).1 3 rfl (by norm_num) (by norm_num)).1

/-! ### C3: single-fragment rectangle formula -/

/-- C3: the single-fragment rectangle interpolates horizontally by character
fractions over the guarded text length, flips the page Y axis, scales, pads
by 3 pixels on all sides, and nudges the top up by a further 6 pixels. -/
theorem claim3_single_fragment_rect (it : Item) (idx tlen : Nat) (m : PageMeta) :
    singleRect it idx tlen m =
      (let n : ℚ := if it.str.length = 0 then 1 else (it.str.length : ℚ)
       let leftX : ℚ := it.x + effWidth it * ((idx : ℚ) / n)
       let rightX : ℚ := it.x + effWidth it * (((idx : ℚ) + (tlen : ℚ)) / n)
       let rawTop : ℚ := m.offsetTop
           + (m.viewportHeight - (it.y - effHeight it) * m.scale)
           - effHeight it * m.scale
       { left := (m.offsetLeft + leftX * m.scale) - 3
         top := (rawTop - 3) - 6
         width := (rightX - leftX) * m.scale + 6
         height := effHeight it * m.scale + 6 }) := by
  simp only [singleRect]
  congr 1 <;> norm_num

/-! ### C9: when highlightPhrase returns false, and state preservation -/

lemma trimChars_lower_nil (phrase : List Char) :
    jsToLower (trimChars phrase) = [] ↔ trimChars phrase = [] := by
  unfold jsToLower
  exact List.map_eq_nil_iff

/-- C9: highlightPhrase returns false exactly when no document is loaded, the
phrase trims to empty, or no page in the visit order yields a rectangle; and a
false-returning call leaves the highlight state untouched. -/
theorem claim9_false_conditions (doc : Option Doc) (phrase : List Char)
    (hint : Option Nat) (st : List Rect) :
    ((highlightPhrase doc phrase hint st).1 = false ↔
      doc = none ∨ trimChars phrase = []
        ∨ ∀ d, doc = some d →
            searchPages d (jsToLower (trimChars phrase))
              (pageOrder d.pages.length hint) = none)
    ∧ ((highlightPhrase doc phrase hint st).1 = false →
        (highlightPhrase doc phrase hint st).2 = st) := by
  cases doc with
  | none => simp [highlightPhrase]
  | some d =>
    by_cases h1 : phrase = []
    · subst h1
      have : trimChars ([] : List Char) = [] := rfl
      simp [highlightPhrase, this]
    · by_cases h2 : jsToLower (trimChars phrase) = []
      · have h2' : trimChars phrase = [] := (trimChars_lower_nil phrase).mp h2
        simp [highlightPhrase, h1, h2', jsToLower]
      · have h2' : trimChars phrase ≠ [] :=
          fun h => h2 ((trimChars_lower_nil phrase).mpr h)
        cases hs : searchPages d (jsToLower (trimChars phrase))
            (pageOrder d.pages.length hint) with
        | none => simp [highlightPhrase, h1, h2, hs, h2']
        | some r =>
          constructor
          · simp only [highlightPhrase, if_neg h1, if_neg h2, hs]
            constructor
            · intro hc; cases hc
            · rintro (hc | hc | hc)
              · cases hc
              · exact absurd hc h2'
              · rw [hc d rfl] at hs; cases hs
          · intro hc
            simp only [highlightPhrase, if_neg h1, if_neg h2, hs] at hc
            cases hc

/-- C9 witness: a phrase absent from the (empty) document yields false and the
highlight state stays empty. -/
theorem claim9_witness :
    (highlightPhrase (some ⟨[]⟩) ['z'] none []).1 = false
      ∧ (highlightPhrase (some ⟨[]⟩) ['z'] none []).2 = [] := by
  constructor
  · exact (claim9_false_conditions (some ⟨[]⟩) ['z'] none []).1.mpr
      (Or.inr (Or.inr (by rintro d ⟨rfl⟩; rfl)))
  · exact (claim9_false_conditions (some ⟨[]⟩) ['z'] none []).2
      ((claim9_false_conditions (some ⟨[]⟩) ['z'] none []).1.mpr
        (Or.inr (Or.inr (by rintro d ⟨rfl⟩; rfl))))

/-! ### C10: at most one active highlight -/

lemma highlightPhrase_shape (doc : Option Doc) (phrase : List Char)
    (hint : Option Nat) (st : List Rect) :
    highlightPhrase doc phrase hint st = (false, st)
      ∨ ∃ r, highlightPhrase doc phrase hint st = (true, [r]) := by
  cases doc with
  | none => left; rfl
  | some d =>
    by_cases h1 : phrase = []
    · left; simp [highlightPhrase, h1]
    · by_cases h2 : jsToLower (trimChars phrase) = []
      · left; simp [highlightPhrase, h1, h2]
      · cases hs : searchPages d (jsToLower (trimChars phrase))
            (pageOrder d.pages.length hint) with
        | none => left; simp [highlightPhrase, h1, h2, hs]
        | some r => right; exact ⟨r, by simp [highlightPhrase, h1, h2, hs]⟩

/-- C10: the highlight state holds at most one rectangle after every
operation: a successful highlightPhrase stores exactly one rectangle, a
failing one leaves the state untouched, clearHighlights empties it, and the
zoom-change re-render empties it without an explicit clear. -/
theorem claim10_single_highlight (vs : ViewerState) (phrase : List Char)
    (hint : Option Nat) (h : vs.highlights.length ≤ 1) :
    ((applyHighlightPhrase vs phrase hint).1 = true →
       (applyHighlightPhrase vs phrase hint).2.highlights.length = 1)
    ∧ ((applyHighlightPhrase vs phrase hint).1 = false →
       (applyHighlightPhrase vs phrase hint).2.highlights = vs.highlights)
    ∧ (applyHighlightPhrase vs phrase hint).2.highlights.length ≤ 1
    ∧ (clearHighlights vs).highlights = []
    ∧ ∀ f, (rerenderOnZoom vs f).highlights = [] := by
  rcases highlightPhrase_shape vs.doc phrase hint vs.highlights with hf | ⟨r, ht⟩
  · refine ⟨?_, ?_, ?_, rfl, fun _ => rfl⟩
    · intro hc
      simp [applyHighlightPhrase, hf] at hc
    · intro _
      simp [applyHighlightPhrase, hf]
    · simpa [applyHighlightPhrase, hf] using h
  · refine ⟨?_, ?_, ?_, rfl, fun _ => rfl⟩
    · intro _
      simp [applyHighlightPhrase, ht]
    · intro hc
      simp [applyHighlightPhrase, ht] at hc
    · simp [applyHighlightPhrase, ht]

/-- C10 witness: concrete instantiation on the empty viewer state. -/
theorem claim10_witness :
    (clearHighlights ⟨none, []⟩).highlights = []
      ∧ (applyHighlightPhrase ⟨none, []⟩ ['a'] none).2.highlights.length ≤ 1 :=
  ⟨(claim10_single_highlight ⟨none, []⟩ ['a'] none (by decide)).2.2.2.1,
   (claim10_single_highlight ⟨none, []⟩ ['a'] none (by decide)).2.2.1⟩

/-! ### Evaluation helpers for concrete scenarios -/

lemma hlP_some_eq (d : Doc) (phrase : List Char) (hint : Option Nat)
    (st : List Rect) (h1 : phrase ≠ [])
    (h2 : jsToLower (trimChars phrase) ≠ []) :
    highlightPhrase (some d) phrase hint st =
      match searchPages d (jsToLower (trimChars phrase))
          (pageOrder d.pages.length hint) with
      | some r => (true, [r])
      | none => (false, st) := by
  simp [highlightPhrase, h1, h2]

/-! ### C8: the EBITDA scenario -/

/-- Page-1 fragment of the spec's EBITDA scenario. -/
def frag8 : RawItem :=
  { str := some "EBITDA of USD 2.3 bn".toList
    transform := some (50, 700)
    width := some 150
    height := some 10 }

/-- Page layout of the EBITDA scenario. -/
def meta8 : PageMeta := ⟨1, 800, 0, 0⟩

/-- One-page document of the EBITDA scenario. -/
def doc8 : Doc := ⟨[⟨[frag8], some meta8⟩]⟩

/-- The searched phrase of the EBITDA scenario. -/
def phrase8 : List Char := "EBITDA of USD 2.3".toList

lemma c8_run : highlightPhrase (some doc8) phrase8 (some 1) [] =
    (true, [⟨47, 91, 267/2, 16⟩]) := by
  have hpage : pageResult (getPage doc8 1) (jsToLower (trimChars phrase8))
      = some ⟨47, 91, 267/2, 16⟩ := by
    have hscan : firstHit (jsToLower (trimChars phrase8))
        (List.map normalizeItem (getPage doc8 1).rawItems) = some (0, 0) := by
      decide
    have hitem : (List.map normalizeItem (getPage doc8 1).rawItems).getD 0 default =
        ⟨"EBITDA of USD 2.3 bn".toList, 50, 700, 150, 10⟩ := by decide
    have hmeta : (getPage doc8 1).meta = some meta8 := by decide
    have hlen : (jsToLower (trimChars phrase8)).length = 17 := by decide
    simp only [pageResult, phase1, hscan, hmeta, hitem, hlen]
    norm_num [singleRect, effWidth, effHeight, jsOr, meta8, Rect.mk.injEq]
  rw [hlP_some_eq doc8 phrase8 (some 1) [] (by decide) (by decide)]
  have hord : pageOrder doc8.pages.length (some 1) = [1] := by decide
  rw [hord]
  simp only [searchPages, hpage]

/-- C8 counterexample: in the EBITDA scenario the phrase has 17 characters
(so charEnd is 17, not 18) and the produced width before padding is 127.5,
not 150*18/21; the claim's numbers are off by one in both the phrase length
and the fragment text length. -/
theorem claim8_counterexample :
    (jsToLower (trimChars phrase8)).length ≠ 18
    ∧ highlightPhrase (some doc8) phrase8 (some 1) []
        = (true, [⟨47, 91, 267/2, 16⟩])
    ∧ ((267 : ℚ)/2 - 2 * 3 ≠ 150 * 18 / 21) := by
  refine ⟨by decide, c8_run, by norm_num⟩

/-- C8 amended: locating the 17-character phrase in the 20-character fragment
yields a hit on fragment 0 at charStart 0 (hence charEnd 17), and the mapped
rectangle has left = 50-3 = 47, top = 800-690-10-3-6 = 91, and width before
padding 150*17/20 = 127.5. -/
theorem claim8_amended :
    highlightPhrase (some doc8) phrase8 (some 1) []
        = (true, [⟨47, 91, 267/2, 16⟩])
    ∧ firstHit (jsToLower (trimChars phrase8))
        (List.map normalizeItem (getPage doc8 1).rawItems) = some (0, 0)
    ∧ (jsToLower (trimChars phrase8)).length = 17
    ∧ ((267 : ℚ)/2 - 2 * 3 = 150 * 17 / 20)
    ∧ ((47 : ℚ) = 50 - 3) ∧ ((91 : ℚ) = 800 - 690 - 10 - 3 - 6) := by
  exact ⟨c8_run, by decide, by decide, by norm_num, by norm_num, by norm_num⟩

/-! ### C6: no clamping of negative rectangles -/

/-- A malformed fragment with negative extracted width. -/
def fragNeg : RawItem :=
  { str := some "ab".toList
    transform := some (0, 100)
    width := some (-100)
    height := some 10 }

/-- One-page document containing the malformed fragment. -/
def docNeg : Doc := ⟨[⟨[fragNeg], some ⟨1, 200, 0, 0⟩⟩]⟩

lemma c6_run : highlightPhrase (some docNeg) "ab".toList none [] =
    (true, [⟨-3, 91, -94, 16⟩]) := by
  have hpage : pageResult (getPage docNeg 1) (jsToLower (trimChars "ab".toList))
      = some ⟨-3, 91, -94, 16⟩ := by
    have hscan : firstHit (jsToLower (trimChars "ab".toList))
        (List.map normalizeItem (getPage docNeg 1).rawItems) = some (0, 0) := by
      decide
    have hitem : (List.map normalizeItem (getPage docNeg 1).rawItems).getD 0 default =
        ⟨"ab".toList, 0, 100, -100, 10⟩ := by decide
    have hmeta : (getPage docNeg 1).meta = some ⟨1, 200, 0, 0⟩ := by decide
    have hlen : (jsToLower (trimChars "ab".toList)).length = 2 := by decide
    simp only [pageResult, phase1, hscan, hmeta, hitem, hlen]
    norm_num [singleRect, effWidth, effHeight, jsOr, Rect.mk.injEq]
  rw [hlP_some_eq docNeg "ab".toList none [] (by decide) (by decide)]
  have hord : pageOrder docNeg.pages.length none = [1] := by decide
  rw [hord]
  simp only [searchPages, hpage]

/-- C6 counterexample: the code contains no clamping; a fragment whose
extracted width is negative flows through highlightPhrase into a highlight
rectangle of width -94 < 0. -/
theorem claim6_counterexample :
    highlightPhrase (some docNeg) "ab".toList none []
        = (true, [⟨-3, 91, -94, 16⟩])
    ∧ ((-94 : ℚ) < 0) := by
  exact ⟨c6_run, by norm_num⟩

lemma singleRect_width_eq (it : Item) (idx tlen : Nat) (m : PageMeta) :
    (singleRect it idx tlen m).width =
      effWidth it * ((tlen : ℚ)
          / (if it.str.length = 0 then (1 : ℚ) else (it.str.length : ℚ)))
        * m.scale + 6 := by
  simp only [singleRect]
  set n : ℚ := if it.str.length = 0 then (1 : ℚ) else (it.str.length : ℚ) with hn
  field_simp
  ring

lemma singleRect_height_eq (it : Item) (idx tlen : Nat) (m : PageMeta) :
    (singleRect it idx tlen m).height = effHeight it * m.scale + 6 := by
  simp only [singleRect]
  norm_num

lemma guard_len_pos (it : Item) :
    (0 : ℚ) < (if it.str.length = 0 then (1 : ℚ) else (it.str.length : ℚ)) := by
  split
  · norm_num
  · next hne => exact_mod_cast Nat.pos_of_ne_zero hne

lemma le_foldl_max (r : List ℚ) : ∀ a : ℚ, a ≤ r.foldl max a := by
  induction r with
  | nil => intro a; exact le_refl a
  | cons b r ih =>
    intro a
    exact le_trans (le_max_left a b) (ih (max a b))

lemma mem_le_foldl_max (r : List ℚ) : ∀ (a x : ℚ), x ∈ r → x ≤ r.foldl max a := by
  induction r with
  | nil => intro a x hx; cases hx
  | cons b r ih =>
    intro a x hx
    rcases List.mem_cons.mp hx with rfl | hx
    · exact le_trans (le_max_right a x) (le_foldl_max r (max a x))
    · exact ih (max a b) x hx

lemma mem_le_foldMax (l : List ℚ) (x : ℚ) (hx : x ∈ l) : x ≤ foldMax l := by
  cases l with
  | nil => cases hx
  | cons a r =>
    rcases List.mem_cons.mp hx with rfl | hx
    · exact le_foldl_max r x
    · exact mem_le_foldl_max r a x hx

lemma foldl_min_le (r : List ℚ) : ∀ a : ℚ, r.foldl min a ≤ a := by
  induction r with
  | nil => intro a; exact le_refl a
  | cons b r ih =>
    intro a
    exact le_trans (ih (min a b)) (min_le_left a b)

lemma foldl_min_le_mem (r : List ℚ) : ∀ (a x : ℚ), x ∈ r → r.foldl min a ≤ x := by
  induction r with
  | nil => intro a x hx; cases hx
  | cons b r ih =>
    intro a x hx
    rcases List.mem_cons.mp hx with rfl | hx
    · exact le_trans (foldl_min_le r (min a x)) (min_le_right a x)
    · exact ih (min a b) x hx

lemma foldMin_le_mem (l : List ℚ) (x : ℚ) (hx : x ∈ l) : foldMin l ≤ x := by
  cases l with
  | nil => cases hx
  | cons a r =>
    rcases List.mem_cons.mp hx with rfl | hx
    · exact foldl_min_le r x
    · exact foldl_min_le_mem r a x hx

lemma foldl_min_mem (r : List ℚ) : ∀ a : ℚ, r.foldl min a ∈ a :: r := by
  induction r with
  | nil => intro a; exact List.mem_singleton.mpr rfl
  | cons b r ih =>
    intro a
    rcases List.mem_cons.mp (ih (min a b)) with he | hm
    · rcases min_choice a b with h | h
      · exact List.mem_cons.mpr (Or.inl (he.trans h))
      · exact List.mem_cons.mpr (Or.inr (List.mem_cons.mpr (Or.inl (he.trans h))))
    · exact List.mem_cons.mpr (Or.inr (List.mem_cons.mpr (Or.inr hm)))

lemma foldMin_mem (l : List ℚ) (h : l ≠ []) : foldMin l ∈ l := by
  cases l with
  | nil => exact absurd rfl h
  | cons a r => exact foldl_min_mem r a

lemma bboxRect_width_eq (its : List Item) (m : PageMeta) :
    (bboxRect its m).width =
      (foldMax (its.map (fun it => it.x + effWidth it))
        - foldMin (its.map Item.x)) * m.scale + 8 := by
  simp only [bboxRect]
  norm_num

lemma bboxRect_height_eq (its : List Item) (m : PageMeta) :
    (bboxRect its m).height =
      (foldMax (its.map Item.y)
        - foldMin (its.map (fun it => it.y - effHeight it))) * m.scale + 8 := by
  simp only [bboxRect]
  norm_num

/-- C6 amended: the code performs no clamping, so the non-negativity guarantee
holds only for well-formed inputs: whenever the effective fragment geometry
(after the missing-field defaults) is non-negative and the scale is
non-negative, both mappers produce rectangles of non-negative width and
height; and the defaults substituted for missing width/height are themselves
non-negative. -/
theorem claim6_amended :
    (∀ (it : Item) (idx tlen : Nat) (m : PageMeta),
        0 ≤ effWidth it → 0 ≤ effHeight it → 0 ≤ m.scale →
        0 ≤ (singleRect it idx tlen m).width
          ∧ 0 ≤ (singleRect it idx tlen m).height)
    ∧ (∀ (its : List Item) (m : PageMeta), its ≠ [] →
        (∀ it ∈ its, 0 ≤ effWidth it ∧ 0 ≤ effHeight it) → 0 ≤ m.scale →
        0 ≤ (bboxRect its m).width ∧ 0 ≤ (bboxRect its m).height)
    ∧ (∀ r : RawItem, r.width = none → 0 ≤ effWidth (normalizeItem r))
    ∧ (∀ r : RawItem, r.height = none → 0 ≤ effHeight (normalizeItem r)) := by
  refine ⟨?_, ?_, ?_, ?_⟩
  · intro it idx tlen m hw hh hs
    constructor
    · rw [singleRect_width_eq]
      have hn := guard_len_pos it
      have h1 : 0 ≤ (tlen : ℚ) / (if it.str.length = 0 then (1:ℚ) else (it.str.length : ℚ)) :=
        div_nonneg (Nat.cast_nonneg tlen) hn.le
      nlinarith [mul_nonneg (mul_nonneg hw h1) hs]
    · rw [singleRect_height_eq]
      nlinarith [mul_nonneg hh hs]
  · intro its m hne hgeom hs
    have hmapne : its.map Item.x ≠ [] := by
      simpa using hne
    obtain ⟨it0, hit0, hminx⟩ := List.mem_map.mp (foldMin_mem _ (by simpa using hne))
    obtain ⟨it1, hit1, hminy⟩ := List.mem_map.mp
      (foldMin_mem (its.map (fun it => it.y - effHeight it)) (by simpa using hne))
    constructor
    · rw [bboxRect_width_eq]
      have h1 : it0.x + effWidth it0 ≤ foldMax (its.map (fun it => it.x + effWidth it)) :=
        mem_le_foldMax _ _ (List.mem_map.mpr ⟨it0, hit0, rfl⟩)
      have h2 : 0 ≤ effWidth it0 := (hgeom it0 hit0).1
      have h3 : foldMin (its.map Item.x) = it0.x := hminx.symm ▸ rfl
      nlinarith [mul_nonneg (by linarith : (0:ℚ) ≤ foldMax (its.map (fun it => it.x + effWidth it)) - foldMin (its.map Item.x)) hs]
    · rw [bboxRect_height_eq]
      have h1 : it1.y ≤ foldMax (its.map Item.y) :=
        mem_le_foldMax _ _ (List.mem_map.mpr ⟨it1, hit1, rfl⟩)
      have h2 : 0 ≤ effHeight it1 := (hgeom it1 hit1).2
      have h3 : foldMin (its.map (fun it => it.y - effHeight it)) = it1.y - effHeight it1 :=
        hminy.symm ▸ rfl
      nlinarith [mul_nonneg (by linarith : (0:ℚ) ≤ foldMax (its.map Item.y) - foldMin (its.map (fun it => it.y - effHeight it))) hs]
  · intro r hr
    unfold effWidth normalizeItem jsOr jsOrOpt
    rw [hr]
    simp only
    split
    · positivity
    · norm_num
  · intro r hr
    unfold effHeight normalizeItem jsOr jsOrOpt
    rw [hr]
    norm_num

/-- C6 amended witness: concrete instantiation of the non-negativity bounds. -/
theorem claim6_witness :
    0 ≤ (singleRect ⟨"ab".toList, 0, 100, 100, 10⟩ 0 2 ⟨1, 200, 0, 0⟩).width
      ∧ 0 ≤ (singleRect ⟨"ab".toList, 0, 100, 100, 10⟩ 0 2 ⟨1, 200, 0, 0⟩).height :=
  claim6_amended.1 ⟨"ab".toList, 0, 100, 100, 10⟩ 0 2 ⟨1, 200, 0, 0⟩
    (by norm_num [effWidth, jsOr]) (by norm_num [effHeight, jsOr]) (by norm_num)

/-! ### C5: multi-fragment bounding box -/

/-- First fragment of the two-fragment scenario. -/
def fragA : RawItem :=
  { str := some "higher revenue".toList
    transform := some (50, 700)
    width := some 150
    height := some 10 }

/-- Second fragment of the two-fragment scenario. -/
def fragB : RawItem :=
  { str := some " and cost management".toList
    transform := some (210, 700)
    width := some 180
    height := some 10 }

/-- Page layout of the two-fragment scenario. -/
def meta5 : PageMeta := ⟨1, 800, 0, 0⟩

/-- One-page document of the two-fragment scenario. -/
def doc5 : Doc := ⟨[⟨[fragA, fragB], some meta5⟩]⟩

/-- A phrase crossing the fragment boundary (the space-join of the two texts
contains two consecutive spaces between the fragments). -/
def phrase5 : List Char := "revenue  and cost".toList

/-- The normalized target phrase of the scenario. -/
def target5 : List Char := jsToLower (trimChars phrase5)

/-- The normalized items of the scenario page. -/
def items5 : List Item := List.map normalizeItem [fragA, fragB]

lemma c5_run : highlightPhrase (some doc5) phrase5 none [] =
    (true, [⟨46, 90, 348, 18⟩]) := by
  have hpage : pageResult (getPage doc5 1) (jsToLower (trimChars phrase5))
      = some ⟨46, 90, 348, 18⟩ := by
    have hscan : firstHit (jsToLower (trimChars phrase5))
        (List.map normalizeItem (getPage doc5 1).rawItems) = none := by decide
    have hmeta : (getPage doc5 1).meta = some meta5 := by decide
    have hidx : idxOf (jsToLower (trimChars phrase5))
        (jsToLower (joinSpace (List.map normalizeItem (getPage doc5 1).rawItems)))
        = some 7 := by decide
    have hlen : (jsToLower (trimChars phrase5)).length = 17 := by decide
    have hfr : findRange (List.map normalizeItem (getPage doc5 1).rawItems) 7 17
        = (0, 1) := by decide
    have hslice : sliceIncl (List.map normalizeItem (getPage doc5 1).rawItems) 0 1
        = [⟨"higher revenue".toList, 50, 700, 150, 10⟩,
           ⟨" and cost management".toList, 210, 700, 180, 10⟩] := by decide
    simp only [pageResult, phase1, hscan, hmeta, phase2, hidx, hlen, hfr, hslice]
    norm_num [bboxRect, foldMin, foldMax, effWidth, effHeight, jsOr, meta5,
      Rect.mk.injEq, min_def, max_def]
  rw [hlP_some_eq doc5 phrase5 none [] (by decide) (by decide)]
  have hord : pageOrder doc5.pages.length none = [1] := by decide
  rw [hord]
  simp only [searchPages, hpage]

/-- C5: the multi-fragment rectangle is the page-space bounding box of the
fragment range (minX/maxX over each fragment's x extent, minY/maxY over each
fragment's vertical extent) mapped to screen space with 4px padding and the
6px upward nudge; and in the concrete two-fragment scenario, phase 1 fails
and phase 2 returns a bounding box covering both fragments. -/
theorem claim5_multi_fragment_bbox :
    (∀ (its : List Item) (m : PageMeta), its ≠ [] →
      bboxRect its m =
        { left := m.offsetLeft + foldMin (its.map Item.x) * m.scale - 4
          top := m.offsetTop
              + (m.viewportHeight - foldMax (its.map Item.y) * m.scale) - 4 - 6
          width := (foldMax (its.map (fun it => it.x + effWidth it))
              - foldMin (its.map Item.x)) * m.scale + 8
          height := (foldMax (its.map Item.y)
              - foldMin (its.map (fun it => it.y - effHeight it))) * m.scale + 8 }
        ∧ ∀ it ∈ its,
            foldMin (its.map Item.x) ≤ it.x
            ∧ it.x + effWidth it ≤ foldMax (its.map (fun it2 => it2.x + effWidth it2))
            ∧ foldMin (its.map (fun it2 => it2.y - effHeight it2)) ≤ it.y - effHeight it
            ∧ it.y ≤ foldMax (its.map Item.y))
    ∧ firstHit target5 items5 = none
    ∧ idxOf target5 (jsToLower (joinSpace items5)) = some 7
    ∧ findRange items5 7 17 = (0, 1)
    ∧ sliceIncl items5 0 1 = items5
    ∧ highlightPhrase (some doc5) phrase5 none [] = (true, [⟨46, 90, 348, 18⟩]) := by
  refine ⟨?_, by decide, by decide, by decide, by decide, c5_run⟩
  intro its m _
  constructor
  · simp only [bboxRect]
    congr 1 <;> norm_num
  · intro it hit
    refine ⟨foldMin_le_mem _ _ (List.mem_map.mpr ⟨it, hit, rfl⟩),
      mem_le_foldMax _ _ (List.mem_map.mpr ⟨it, hit, rfl⟩),
      foldMin_le_mem _ _ (List.mem_map.mpr ⟨it, hit, rfl⟩),
      mem_le_foldMax _ _ (List.mem_map.mpr ⟨it, hit, rfl⟩)⟩

/-- C5 witness: the bounding-box formula instantiated at the scenario items. -/
theorem claim5_witness :
    foldMin (items5.map Item.x) ≤ (normalizeItem fragA).x
      ∧ (normalizeItem fragA).x + effWidth (normalizeItem fragA)
          ≤ foldMax (items5.map (fun it2 => it2.x + effWidth it2)) := by
  have h := (claim5_multi_fragment_bbox.1 items5 meta5 (by decide)).2
    (normalizeItem fragA) (by decide)
  exact ⟨h.1, h.2.1⟩

/-! ### C7: first matching page wins; missing layout means not-found -/

/-- C7: a page with no recorded layout yields no result (not an error); the
page loop returns the first page's rectangle immediately when it matches; and
in general the search result is exactly the result of the first page in visit
order that produces a rectangle, with all earlier pages producing none. -/
theorem claim7_first_page_stops (d : Doc) (target : List Char) :
    (∀ (pg : Page) (t : List Char), pg.meta = none → pageResult pg t = none)
    ∧ (∀ (p : Nat) (rest : List Nat) (r : Rect),
        pageResult (getPage d p) target = some r →
        searchPages d target (p :: rest) = some r)
    ∧ (∀ (ps : List Nat) (r : Rect), searchPages d target ps = some r ↔
        ∃ i, i < ps.length
          ∧ pageResult (getPage d (ps.getD i 0)) target = some r
          ∧ ∀ j < i, pageResult (getPage d (ps.getD j 0)) target = none) := by
  have hmeta : ∀ (pg : Page) (t : List Char), pg.meta = none →
      pageResult pg t = none := by
    intro pg t h
    have h1 : ∀ its, phase1 its t none = none := by
      intro its
      unfold phase1
      rcases firstHit t its with _ | ⟨i, idx⟩ <;> rfl
    have h2 : ∀ its, phase2 its t none = none := by
      intro its
      unfold phase2
      rcases idxOf t (jsToLower (joinSpace its)) with _ | idx <;> rfl
    simp only [pageResult, h, h1, h2]
  refine ⟨hmeta, ?_, ?_⟩
  · intro p rest r h
    simp [searchPages, h]
  · intro ps
    induction ps with
    | nil =>
      intro r
      simp [searchPages]
    | cons p rest ih =>
      intro r
      cases hp : pageResult (getPage d p) target with
      | some r' =>
        simp only [searchPages, hp]
        constructor
        · intro he
          injection he with he
          subst he
          exact ⟨0, Nat.succ_pos _, by simpa using hp,
            fun j hj => absurd hj (Nat.not_lt_zero j)⟩
        · rintro ⟨i, hi, hres, hmin⟩
          cases i with
          | zero => simpa using hp.symm.trans hres
          | succ i' =>
            have h0 := hmin 0 (Nat.succ_pos i')
            rw [List.getD_cons_zero, hp] at h0
            cases h0
      | none =>
        simp only [searchPages, hp]
        constructor
        · intro hsr
          obtain ⟨i, hi, hres, hmin⟩ := (ih r).mp hsr
          refine ⟨i + 1, by simpa using hi, by simpa using hres, ?_⟩
          intro j hj
          cases j with
          | zero => simpa using hp
          | succ j' =>
            have := hmin j' (by omega)
            simpa using this
        · rintro ⟨i, hi, hres, hmin⟩
          cases i with
          | zero =>
            rw [List.getD_cons_zero, hp] at hres
            cases hres
          | succ i' =>
            refine (ih r).mpr ⟨i', by simpa using hi, by simpa using hres, ?_⟩
            intro j hj
            have := hmin (j + 1) (by omega)
            simpa using this

/-- C7 witness: a page whose fragment contains the phrase but that has no
recorded layout entry is treated as not-found. -/
theorem claim7_witness :
    pageResult ⟨[⟨some "xy".toList, some (0, 0), none, none⟩], none⟩
      "xy".toList = none :=
  (claim7_first_page_stops ⟨[]⟩ []).1
    ⟨[⟨some "xy".toList, some (0, 0), none, none⟩], none⟩ "xy".toList rfl

/-! ### C1: phase-1 scan lemmas -/

lemma isPrefixOf_iff_exists : ∀ (t s : List Char),
    t.isPrefixOf s = true ↔ ∃ v, s = t ++ v
  | [], s => by simp [List.isPrefixOf]
  | a :: t, [] => by simp [List.isPrefixOf]
  | a :: t, b :: s => by
    simp only [List.isPrefixOf, Bool.and_eq_true, beq_iff_eq]
    constructor
    · rintro ⟨rfl, h⟩
      obtain ⟨v, rfl⟩ := (isPrefixOf_iff_exists t s).mp h
      exact ⟨v, rfl⟩
    · rintro ⟨v, hv⟩
      injection hv with h1 h2
      exact ⟨h1.symm, (isPrefixOf_iff_exists t s).mpr ⟨v, h2⟩⟩

lemma idxOf_some_spec (t : List Char) : ∀ (s : List Char) (n : Nat),
    idxOf t s = some n →
      t.isPrefixOf (s.drop n) = true
      ∧ (∀ m < n, t.isPrefixOf (s.drop m) = false)
      ∧ n ≤ s.length
  | [], n => by
    intro h
    unfold idxOf at h
    split at h
    · next hp =>
      injection h with h
      subst h
      exact ⟨hp, fun m hm => absurd hm (Nat.not_lt_zero m), Nat.le_refl 0⟩
    · cases h
  | c :: s, n => by
    intro h
    unfold idxOf at h
    split at h
    · next hp =>
      injection h with h
      subst h
      exact ⟨hp, fun m hm => absurd hm (Nat.not_lt_zero m), Nat.zero_le _⟩
    · next hnp =>
      obtain ⟨n', hn', rfl⟩ := Option.map_eq_some'.mp h
      obtain ⟨h1, h2, h3⟩ := idxOf_some_spec t s n' hn'
      refine ⟨h1, ?_, by simpa using Nat.succ_le_succ h3⟩
      intro m hm
      cases m with
      | zero => exact eq_false_of_ne_true hnp
      | succ m' => exact h2 m' (Nat.lt_of_succ_lt_succ hm)

lemma idxOf_none_spec (t : List Char) : ∀ (s : List Char),
    idxOf t s = none → ∀ m, t.isPrefixOf (s.drop m) = false
  | [] => by
    intro h m
    unfold idxOf at h
    split at h
    · cases h
    · next hnp => simpa using eq_false_of_ne_true hnp
  | c :: s => by
    intro h m
    unfold idxOf at h
    split at h
    · cases h
    · next hnp =>
      have hn : idxOf t s = none := Option.map_eq_none'.mp h
      cases m with
      | zero => exact eq_false_of_ne_true hnp
      | succ m' => exact idxOf_none_spec t s hn m'

lemma contains_iff_drop (t s : List Char) :
    (∃ u v, s = u ++ t ++ v) ↔ ∃ m, t.isPrefixOf (s.drop m) = true := by
  constructor
  · rintro ⟨u, v, rfl⟩
    refine ⟨u.length, ?_⟩
    rw [List.append_assoc, List.drop_left]
    exact (isPrefixOf_iff_exists t (t ++ v)).mpr ⟨v, rfl⟩
  · rintro ⟨m, h⟩
    obtain ⟨v, hv⟩ := (isPrefixOf_iff_exists t (s.drop m)).mp h
    refine ⟨s.take m, v, ?_⟩
    rw [List.append_assoc, ← hv, List.take_append_drop]

lemma firstHitAux_some_spec (target : List Char) :
    ∀ (items : List Item) (i0 : Nat) (pr : Nat × Nat),
      firstHitAux target items i0 = some pr ↔
        ∃ k, k < items.length ∧ pr.1 = i0 + k
          ∧ idxOf target (jsToLower ((items.getD k default).str)) = some pr.2
          ∧ ∀ j < k, idxOf target (jsToLower ((items.getD j default).str)) = none := by
  intro items
  induction items with
  | nil =>
    intro i0 pr
    simp [firstHitAux]
  | cons it rest ih =>
    intro i0 pr
    cases hidx : idxOf target (jsToLower it.str) with
    | some idx =>
      simp only [firstHitAux, hidx]
      constructor
      · intro h
        injection h with h
        subst h
        exact ⟨0, Nat.succ_pos _, by simp, by simpa using hidx,
          fun j hj => absurd hj (Nat.not_lt_zero j)⟩
      · rintro ⟨k, hk, hpr1, hpr2, hmin⟩
        cases k with
        | zero =>
          simp only [List.getD_cons_zero] at hpr2
          rw [hidx] at hpr2
          injection hpr2 with hpr2
          obtain ⟨a, b⟩ := pr
          simp only at hpr1 hpr2
          simp [hpr1, ← hpr2]
        | succ k' =>
          have h0 := hmin 0 (Nat.succ_pos k')
          simp only [List.getD_cons_zero] at h0
          rw [hidx] at h0
          cases h0
    | none =>
      simp only [firstHitAux, hidx]
      rw [ih (i0 + 1) pr]
      constructor
      · rintro ⟨k, hk, hpr1, hpr2, hmin⟩
        refine ⟨k + 1, by simp only [List.length_cons]; omega, by omega,
          by simpa using hpr2, ?_⟩
        intro j hj
        cases j with
        | zero => simpa using hidx
        | succ j' => simpa using hmin j' (by omega)
      · rintro ⟨k, hk, hpr1, hpr2, hmin⟩
        cases k with
        | zero =>
          simp only [List.getD_cons_zero] at hpr2
          rw [hidx] at hpr2
          cases hpr2
        | succ k' =>
          refine ⟨k', by simp only [List.length_cons] at hk; omega, by omega,
            by simpa using hpr2, ?_⟩
          intro j hj
          simpa using hmin (j + 1) (by omega)

lemma firstHitAux_none_spec (target : List Char) :
    ∀ (items : List Item) (i0 : Nat),
      firstHitAux target items i0 = none →
        ∀ k < items.length,
          idxOf target (jsToLower ((items.getD k default).str)) = none := by
  intro items
  induction items with
  | nil =>
    intro i0 _ k hk
    cases hk
  | cons it rest ih =>
    intro i0 h k hk
    cases hidx : idxOf target (jsToLower it.str) with
    | some idx =>
      simp only [firstHitAux, hidx] at h
      cases h
    | none =>
      simp only [firstHitAux, hidx] at h
      cases k with
      | zero => simpa using hidx
      | succ k' =>
        simpa using ih (i0 + 1) h k'
          (by simp only [List.length_cons] at hk; omega)

/-- C1: phase 1 selects the first fragment (in original order) whose
lower-cased text contains the target phrase as a substring; the recorded
offset is the first occurrence in that fragment, the span lies entirely
within that single fragment, and the produced rectangle is the
single-fragment rectangle for charStart = idx, charEnd = idx + phrase
length.  Conversely, whenever some fragment contains the phrase, the scan
produces a hit. -/
theorem claim1_phase1_first_fragment (items : List Item) (target : List Char) :
    (∀ i idx, firstHit target items = some (i, idx) →
      i < items.length
      ∧ (∃ u v, jsToLower ((items.getD i default).str) = u ++ target ++ v)
      ∧ target.isPrefixOf ((jsToLower ((items.getD i default).str)).drop idx) = true
      ∧ (∀ m < idx,
          target.isPrefixOf ((jsToLower ((items.getD i default).str)).drop m) = false)
      ∧ idx + target.length ≤ (items.getD i default).str.length
      ∧ (∀ j < i, ¬ ∃ u v, jsToLower ((items.getD j default).str) = u ++ target ++ v)
      ∧ ∀ m : PageMeta, phase1 items target (some m)
          = some (singleRect (items.getD i default) idx target.length m))
    ∧ ((∃ j, j < items.length
          ∧ ∃ u v, jsToLower ((items.getD j default).str) = u ++ target ++ v) →
        ∃ i idx, firstHit target items = some (i, idx)) := by
  constructor
  · intro i idx hfh
    obtain ⟨k, hk, hpr1, hpr2, hmin⟩ :=
      (firstHitAux_some_spec target items 0 (i, idx)).mp hfh
    simp only at hpr1 hpr2
    have hik : i = k := by omega
    subst hik
    obtain ⟨h1, h2, h3⟩ := idxOf_some_spec target _ idx hpr2
    refine ⟨hk, ?_, h1, h2, ?_, ?_, ?_⟩
    · exact (contains_iff_drop target _).mpr ⟨idx, h1⟩
    · obtain ⟨v, hv⟩ := (isPrefixOf_iff_exists target _).mp h1
      have hlen := congrArg List.length hv
      rw [List.length_drop, List.length_append] at hlen
      have hmaplen : (jsToLower ((items.getD i default).str)).length
          = ((items.getD i default).str).length := List.length_map _ _
      rw [hmaplen] at hlen h3
      omega
    · intro j hj hcon
      obtain ⟨m, hm⟩ := (contains_iff_drop target _).mp hcon
      have := idxOf_none_spec target _ (hmin j hj) m
      rw [this] at hm
      cases hm
    · intro m
      simp only [phase1, hfh]
  · rintro ⟨j, hj, hcon⟩
    cases hfh : firstHit target items with
    | some pr =>
      obtain ⟨a, b⟩ := pr
      exact ⟨a, b, rfl⟩
    | none =>
      obtain ⟨m, hm⟩ := (contains_iff_drop target _).mp hcon
      have := idxOf_none_spec target _ (firstHitAux_none_spec target items 0 hfh j hj) m
      rw [this] at hm
      cases hm

/-- C1 witness: the scan at a concrete single-fragment list. -/
theorem claim1_witness :
    ("ab".toList).isPrefixOf
        ((jsToLower ((([⟨"xaby".toList, 0, 0, 0, 0⟩] : List Item).getD 0
            default).str)).drop 1) = true
    ∧ 1 + ("ab".toList).length
        ≤ (([⟨"xaby".toList, 0, 0, 0, 0⟩] : List Item).getD 0 default).str.length := by
  have h := (claim1_phase1_first_fragment [⟨"xaby".toList, 0, 0, 0, 0⟩]
    "ab".toList).1 0 1 (by decide)
  exact ⟨h.2.2.1, h.2.2.2.2.1⟩

/-! ### C4: phase-2 fragment-range walk -/

/-- Cumulative end of fragment `j` in the space-joined concatenation: the sum
of the first `j+1` fragment lengths plus one separator per fragment (the
running value the source calls `next`). -/
def cumEnd (lens : List Nat) (j : Nat) : Nat := (lens.take (j + 1)).sum + (j + 1)

lemma cumEnd_zero_cons (len : Nat) (rest : List Nat) :
    cumEnd (len :: rest) 0 = len + 1 := by
  simp [cumEnd]

lemma cumEnd_succ_cons (len : Nat) (rest : List Nat) (j : Nat) :
    cumEnd (len :: rest) (j + 1) = len + 1 + cumEnd rest j := by
  simp only [cumEnd, List.take_succ_cons, List.sum_cons]
  omega

lemma walkAux_some_state (idx tlen : Nat) : ∀ (lens : List Nat) (i cum s : Nat),
    ((∀ j, j < lens.length → cum + cumEnd lens j < idx + tlen) →
      walkAux idx tlen lens i cum (some s) = (some s, none))
    ∧ (∀ ej, ej < lens.length → idx + tlen ≤ cum + cumEnd lens ej →
        (∀ k, k < ej → cum + cumEnd lens k < idx + tlen) →
        walkAux idx tlen lens i cum (some s) = (some s, some (i + ej))) := by
  intro lens
  induction lens with
  | nil =>
    intro i cum s
    exact ⟨fun _ => rfl, fun ej hej _ _ => absurd hej (Nat.not_lt_zero ej)⟩
  | cons len rest ih =>
    intro i cum s
    constructor
    · intro hall
      have h0 := hall 0 (Nat.succ_pos _)
      rw [cumEnd_zero_cons] at h0
      simp only [walkAux]
      split
      · next hc =>
        exfalso
        obtain ⟨-, hle⟩ := hc
        omega
      · next hc =>
        apply (ih (i + 1) (cum + len + 1) s).1
        intro j hj
        have hj1 := hall (j + 1) (by simp only [List.length_cons]; omega)
        rw [cumEnd_succ_cons] at hj1
        omega
    · intro ej hej hle hmin
      cases ej with
      | zero =>
        rw [cumEnd_zero_cons] at hle
        simp only [walkAux]
        split
        · next hc => simp
        · next hc => exact absurd ⟨rfl, by omega⟩ hc
      | succ ej' =>
        have h0 := hmin 0 (Nat.succ_pos _)
        rw [cumEnd_zero_cons] at h0
        rw [cumEnd_succ_cons] at hle
        simp only [walkAux]
        split
        · next hc =>
          exfalso
          obtain ⟨-, hc2⟩ := hc
          omega
        · next hc =>
          have hres := (ih (i + 1) (cum + len + 1) s).2 ej'
            (by simp only [List.length_cons] at hej; omega)
            (by omega)
            (fun k hk => by
              have hk1 := hmin (k + 1) (by omega)
              rw [cumEnd_succ_cons] at hk1
              omega)
          rw [hres]
          simp only [Prod.mk.injEq, Option.some.injEq, true_and]
          omega

lemma walkAux_none_state (idx tlen : Nat) : ∀ (lens : List Nat) (i cum : Nat),
    ((∀ j, j < lens.length → cum + cumEnd lens j ≤ idx) →
      walkAux idx tlen lens i cum none = (none, none))
    ∧ (∀ sj, sj < lens.length → idx < cum + cumEnd lens sj →
        (∀ k, k < sj → cum + cumEnd lens k ≤ idx) →
        ((∀ k, sj ≤ k → k < lens.length → cum + cumEnd lens k < idx + tlen) →
          walkAux idx tlen lens i cum none = (some (i + sj), none))
        ∧ (∀ ej, sj ≤ ej → ej < lens.length →
            idx + tlen ≤ cum + cumEnd lens ej →
            (∀ k, sj ≤ k → k < ej → cum + cumEnd lens k < idx + tlen) →
            walkAux idx tlen lens i cum none = (some (i + sj), some (i + ej)))) := by
  intro lens
  induction lens with
  | nil =>
    intro i cum
    exact ⟨fun _ => rfl, fun sj hsj => absurd hsj (Nat.not_lt_zero sj)⟩
  | cons len rest ih =>
    intro i cum
    constructor
    · intro hall
      have h0 := hall 0 (Nat.succ_pos _)
      rw [cumEnd_zero_cons] at h0
      simp only [walkAux]
      rw [if_neg (by omega : ¬ idx < cum + len + 1)]
      split
      · next hc => exact absurd hc.1 (by simp)
      · next hc =>
        apply (ih (i + 1) (cum + len + 1)).1
        intro j hj
        have hj1 := hall (j + 1) (by simp only [List.length_cons]; omega)
        rw [cumEnd_succ_cons] at hj1
        omega
    · intro sj hsj hs hminstart
      cases sj with
      | zero =>
        rw [cumEnd_zero_cons] at hs
        constructor
        · intro hallend
          have h0 := hallend 0 (Nat.zero_le _) (Nat.succ_pos _)
          rw [cumEnd_zero_cons] at h0
          simp only [walkAux]
          rw [if_pos (by omega : idx < cum + len + 1)]
          split
          · next hc =>
            exfalso
            obtain ⟨-, hc2⟩ := hc
            omega
          · next hc =>
            have hres := (walkAux_some_state idx tlen rest (i + 1) (cum + len + 1) i).1
              (fun j hj => by
                have hj1 := hallend (j + 1) (Nat.zero_le _)
                  (by simp only [List.length_cons]; omega)
                rw [cumEnd_succ_cons] at hj1
                omega)
            rw [hres]
            simp
        · intro ej hsje hej hle hminend
          cases ej with
          | zero =>
            rw [cumEnd_zero_cons] at hle
            simp only [walkAux]
            rw [if_pos (by omega : idx < cum + len + 1)]
            split
            · next hc => simp
            · next hc => exact absurd ⟨rfl, by omega⟩ hc
          | succ ej' =>
            have h0 := hminend 0 (Nat.zero_le _) (Nat.succ_pos _)
            rw [cumEnd_zero_cons] at h0
            rw [cumEnd_succ_cons] at hle
            simp only [walkAux]
            rw [if_pos (by omega : idx < cum + len + 1)]
            split
            · next hc =>
              exfalso
              obtain ⟨-, hc2⟩ := hc
              omega
            · next hc =>
              have hres := (walkAux_some_state idx tlen rest (i + 1) (cum + len + 1) i).2
                ej' (by simp only [List.length_cons] at hej; omega)
                (by omega)
                (fun k hk => by
                  have hk1 := hminend (k + 1) (by omega) (by omega)
                  rw [cumEnd_succ_cons] at hk1
                  omega)
              rw [hres]
              simp only [Prod.mk.injEq, Option.some.injEq]
              omega
      | succ sj' =>
        have h0 := hminstart 0 (Nat.succ_pos _)
        rw [cumEnd_zero_cons] at h0
        rw [cumEnd_succ_cons] at hs
        have hrec := (ih (i + 1) (cum + len + 1)).2 sj'
          (by simp only [List.length_cons] at hsj; omega)
          (by omega)
          (fun k hk => by
            have hk1 := hminstart (k + 1) (by omega)
            rw [cumEnd_succ_cons] at hk1
            omega)
        constructor
        · intro hallend
          simp only [walkAux]
          rw [if_neg (by omega : ¬ idx < cum + len + 1)]
          split
          · next hc => exact absurd hc.1 (by simp)
          · next hc =>
            have hres := hrec.1 (fun k hk1 hk2 => by
              have hk3 := hallend (k + 1) (by omega)
                (by simp only [List.length_cons]; omega)
              rw [cumEnd_succ_cons] at hk3
              omega)
            rw [hres]
            simp only [Prod.mk.injEq, Option.some.injEq, and_true]
            omega
        · intro ej hsje hej hle hminend
          cases ej with
          | zero => exact absurd hsje (by omega)
          | succ ej'' =>
            rw [cumEnd_succ_cons] at hle
            simp only [walkAux]
            rw [if_neg (by omega : ¬ idx < cum + len + 1)]
            split
            · next hc => exact absurd hc.1 (by simp)
            · next hc =>
              have hres := hrec.2 ej'' (by omega)
                (by simp only [List.length_cons] at hej; omega)
                (by omega)
                (fun k hk1 hk2 => by
                  have hk3 := hminend (k + 1) (by omega) (by omega)
                  rw [cumEnd_succ_cons] at hk3
                  omega)
              rw [hres]
              simp only [Prod.mk.injEq, Option.some.injEq]
              omega

lemma findRange_spec (items : List Item) (idx tlen sj : Nat)
    (hsj : sj < items.length)
    (hs : idx < cumEnd (items.map (fun it => it.str.length)) sj)
    (hmin : ∀ k, k < sj → cumEnd (items.map (fun it => it.str.length)) k ≤ idx) :
    ((∀ k, sj ≤ k → k < items.length →
        cumEnd (items.map (fun it => it.str.length)) k < idx + tlen) →
      findRange items idx tlen = (sj, sj))
    ∧ (∀ ej, sj ≤ ej → ej < items.length →
        idx + tlen ≤ cumEnd (items.map (fun it => it.str.length)) ej →
        (∀ k, sj ≤ k → k < ej →
          cumEnd (items.map (fun it => it.str.length)) k < idx + tlen) →
        findRange items idx tlen = (sj, ej)) := by
  have hlen : (items.map (fun it => it.str.length)).length = items.length :=
    List.length_map _ _
  have hb := (walkAux_none_state idx tlen (items.map (fun it => it.str.length)) 0 0).2
    sj (by omega) (by simpa using hs) (fun k hk => by simpa using hmin k hk)
  constructor
  · intro hall
    have hres := hb.1 (fun k hk1 hk2 => by
      have := hall k hk1 (by omega)
      simpa using this)
    unfold findRange
    rw [hres]
    simp
  · intro ej hej1 hej2 hle hminend
    have hres := hb.2 ej hej1 (by omega) (by simpa using hle)
      (fun k hk1 hk2 => by simpa using hminend k hk1 hk2)
    unfold findRange
    rw [hres]
    simp

/-- C4: when phase 1 finds no single-fragment match, the page falls through to
phase 2, which searches the lower-cased single-space join of the fragment
texts; on a hit, the fragment range is determined by the cumulative
length-plus-one-separator walk: the start fragment is the first whose
cumulative end exceeds the match offset, the end fragment is the first at or
after the start whose cumulative end reaches the match end, and when no end
fragment exists the end equals the start. -/
theorem claim4_phase2_fallback (target : List Char) (m : PageMeta) :
    (joinSpace ([] : List Item) = []
      ∧ (∀ it : Item, joinSpace [it] = it.str)
      ∧ ∀ (it it2 : Item) (rest : List Item),
          joinSpace (it :: it2 :: rest) = it.str ++ ' ' :: joinSpace (it2 :: rest))
    ∧ (∀ pg : Page,
        firstHit target (pg.rawItems.map normalizeItem) = none →
        pageResult pg target
          = phase2 (pg.rawItems.map normalizeItem) target pg.meta)
    ∧ (∀ (items : List Item) (idx : Nat),
        idxOf target (jsToLower (joinSpace items)) = some idx →
        phase2 items target (some m)
          = some (bboxRect
              (sliceIncl items (findRange items idx target.length).1
                (findRange items idx target.length).2) m))
    ∧ (∀ (items : List Item) (idx sj : Nat),
        sj < items.length →
        idx < cumEnd (items.map (fun it => it.str.length)) sj →
        (∀ k, k < sj → cumEnd (items.map (fun it => it.str.length)) k ≤ idx) →
        ((∀ k, sj ≤ k → k < items.length →
            cumEnd (items.map (fun it => it.str.length)) k < idx + target.length) →
          findRange items idx target.length = (sj, sj))
        ∧ (∀ ej, sj ≤ ej → ej < items.length →
            idx + target.length ≤ cumEnd (items.map (fun it => it.str.length)) ej →
            (∀ k, sj ≤ k → k < ej →
              cumEnd (items.map (fun it => it.str.length)) k < idx + target.length) →
            findRange items idx target.length = (sj, ej))) := by
  refine ⟨⟨rfl, ?_, ?_⟩, ?_, ?_, ?_⟩
  · intro it
    simp [joinSpace, List.intercalate]
  · intro it it2 rest
    simp [joinSpace, List.intercalate, List.intersperse]
  · intro pg hfh
    have h1 : phase1 (pg.rawItems.map normalizeItem) target pg.meta = none := by
      unfold phase1
      rw [hfh]
    simp only [pageResult, h1]
  · intro items idx hidx
    simp only [phase2, hidx]
  · intro items idx sj h1 h2 h3
    exact findRange_spec items idx target.length sj h1 h2 h3

/-- C4 witness: the walk at a concrete two-fragment page, with the match
inside the second fragment. -/
theorem claim4_witness :
    findRange [⟨"abc".toList, 0, 0, 0, 0⟩, ⟨"def".toList, 0, 0, 0, 0⟩] 4 2
      = (1, 1) := by
  have h := (claim4_phase2_fallback "ef".toList ⟨1, 1, 0, 0⟩).2.2.2
    [⟨"abc".toList, 0, 0, 0, 0⟩, ⟨"def".toList, 0, 0, 0, 0⟩] 4 1
    (by decide) (by decide)
    (fun k hk => by
      have hk0 : k = 0 := by omega
      subst hk0
      decide)
  exact h.2 1 (by omega) (by decide) (by decide) (fun k hk1 hk2 => by omega)

end TextHighlighter
